/-
Verification of the tag-driven lottery ETL pipeline
(fetch_games_results.py, compile_lottery_results.py, reset_processed_tags.py).

The object store (MinIO/S3) is modelled as a list of entries, each holding a
key, the stored content, and its tag set (a list of key/value string pairs).
JSON payloads are modelled by an inductive `Json` type; stored content is
either well-formed JSON (`Content.jsonC`) or opaque bytes on which
`json.loads` fails (`Content.rawC`).  The DuckDB table `lottery_results` is
modelled as a list of rows; the `(game_name, draw_number)` primary key with
ON CONFLICT DO NOTHING becomes `insertRow`.  Failure environments (object
writes or tag writes that raise) are lists of failing keys in `ArchiveEnv`.
-/
import Mathlib

namespace Lottery

/-! ### String primitives

Structurally recursive counterparts of the Python string operations the
pipeline uses (split on a separator character, substring replacement,
prefix/suffix tests), written over `String.data` so that every definition
evaluates on concrete inputs. -/

/-- Python `a.startswith(b)` / `b in a` at position 0: `b` is a prefix of `a`. -/
def strPrefixOf (p s : String) : Bool := p.data.isPrefixOf s.data

/-- Python `a.endswith(b)`. -/
def strSuffixOf (p s : String) : Bool := p.data.isSuffixOf s.data

/-- The string is empty. -/
def strIsEmpty (s : String) : Bool := s.data.isEmpty

/-- Drop the first `n` characters. -/
def strDrop (s : String) (n : Nat) : String := String.mk (s.data.drop n)

/-- Helper for `splitOnChar`: accumulate the current (reversed) piece. -/
def charSplit (sep : Char) : List Char → List Char → List (List Char)
  | cur, [] => [cur.reverse]
  | cur, c :: rest =>
      if c == sep then cur.reverse :: charSplit sep [] rest
      else charSplit sep (c :: cur) rest

/-- Python `s.split(sep)` for a one-character separator (the only form the
pipeline uses: splitting paths and dates on a single character). -/
def splitOnChar (sep : Char) (s : String) : List String :=
  (charSplit sep [] s.data).map String.mk

/-- Helper for `strReplace`: replace each leftmost occurrence of `pat`,
continuing after it; `fuel` starts at the input length. -/
def replaceAux (pat rep : List Char) : Nat → List Char → List Char
  | _, [] => []
  | 0, l => l
  | fuel + 1, c :: rest =>
      if pat.isPrefixOf (c :: rest) then
        rep ++ replaceAux pat rep fuel ((c :: rest).drop pat.length)
      else c :: replaceAux pat rep fuel rest

/-- Python `s.replace(pat, rep)`: replace all non-overlapping occurrences,
left to right (`pat` nonempty wherever the pipeline calls it). -/
def strReplace (s pat rep : String) : String :=
  if pat.data.isEmpty then s
  else String.mk (replaceAux pat.data rep.data s.data.length s.data)

/-- JSON values, as produced by `json.loads` on an API payload. -/
inductive Json where
  | null : Json
  | bool (b : Bool) : Json
  | num (n : Int) : Json
  | str (s : String) : Json
  | arr (elems : List Json) : Json
  | obj (fields : List (String × Json)) : Json


/-- Python `data[k]` / `data.get(k)` on a dict: first binding of key `k`. -/
def Json.lookup : Json → String → Option Json
  | Json.obj fields, k => (fields.find? (fun f => f.1 == k)).map (fun f => f.2)
  | _, _ => none

/-- Python `k in data` for a dict. -/
def Json.hasKey (j : Json) (k : String) : Bool := (j.lookup k).isSome

/-- Python truthiness of a JSON value (`if not results`). -/
def jsonFalsy : Json → Bool
  | Json.obj fields => fields.isEmpty
  | Json.arr elems => elems.isEmpty
  | Json.num n => n == 0
  | Json.str s => s.data.isEmpty
  | Json.bool b => !b
  | Json.null => true

/-- Stored object content: either bytes that `json.loads` accepts (kept as the
parsed value, since `json.dumps` is injective on it) or bytes on which
`json.loads` raises. -/
inductive Content where
  | jsonC (j : Json) : Content
  | rawC (s : String) : Content


/-- Python truthiness of the bytes returned by `read_path` (`if existing_file`). -/
def contentTruthy : Content → Bool
  | Content.jsonC _ => true
  | Content.rawC s => !s.data.isEmpty

/-- One object in the bucket: key, content and its tag set. -/
structure ObjEntry where
  key : String
  content : Content
  tags : List (String × String)


/-- The bucket: a list of objects (S3 keys are unique in a real bucket;
claims that need uniqueness take it as a hypothesis). -/
abbrev ObjStore := List ObjEntry

/-- S3 `get_object` / `S3Bucket.read_path`: content of the object at `k`,
`none` when the key is absent (the client raises, callers treat it as
absence/failure). -/
def readPath (s : ObjStore) (k : String) : Option Content :=
  (s.find? (fun o => o.key == k)).map (fun o => o.content)

/-- S3 `put_object` / `S3Bucket.write_path`: store content at `k`.  A put on
an existing key replaces the object and clears its tags; otherwise the new
object is appended with an empty tag set. -/
def writePath (s : ObjStore) (k : String) (c : Content) : ObjStore :=
  if s.any (fun o => o.key == k) then
    s.map (fun o => if o.key == k then { o with content := c, tags := [] } else o)
  else
    s ++ [⟨k, c, []⟩]

/-- `put_object_tagging` on key `k` composed with a tag-set transformation
read off from `get_object_tagging` (how all three tag tasks operate). -/
def updateTags (s : ObjStore) (k : String)
    (f : List (String × String) → List (String × String)) : ObjStore :=
  s.map (fun o => if o.key == k then { o with tags := f o.tags } else o)

/-- Does the tag set contain a tag with this key and value
(`any(tag['Key'] == k and tag['Value'] == v for tag in tags)`). -/
def hasTag (ts : List (String × String)) (k v : String) : Bool :=
  ts.any (fun t => t.1 == k && t.2 == v)

/-- The mutation both `mark_file_as_*` tasks apply to a fetched tag set:
rewrite the value of the first `processed` tag to `v`; when `app` is true and
no `processed` tag exists, append one (only `mark_file_as_processed` does). -/
def setProcessedTo (v : String) (app : Bool) : List (String × String) → List (String × String)
  | [] => if app then [("processed", v)] else []
  | t :: rest =>
      if t.1 == "processed" then ("processed", v) :: rest
      else t :: setProcessedTo v app rest

/-- `mark_file_as_processed` (compile_lottery_results.py:40-71): set the first
`processed` tag to `true`, appending one if absent; its own errors are
swallowed, so in the model it always succeeds. -/
def mark_file_as_processed (s : ObjStore) (k : String) : ObjStore :=
  updateTags s k (setProcessedTo "true" true)

/-- `mark_file_as_unprocessed` (reset_processed_tags.py:34-56): set the first
`processed` tag to `false`; no append when the tag is absent. -/
def mark_file_as_unprocessed (s : ObjStore) (k : String) : ObjStore :=
  updateTags s k (setProcessedTo "false" false)

/-- `tag_file_as_unprocessed` (fetch_games_results.py:101-120): replace the
object's whole tag set by `processed=false`. -/
def tag_file_as_unprocessed (s : ObjStore) (k : String) : ObjStore :=
  updateTags s k (fun _ => [("processed", "false")])

/-- `get_unprocessed_files` (compile_lottery_results.py:10-38): keys under the
prefix whose tag set has a `processed=false` tag. -/
def get_unprocessed_files (s : ObjStore) (pfx : String) : List String :=
  s.filterMap (fun o =>
    if strPrefixOf pfx o.key && hasTag o.tags "processed" "false" then some o.key else none)

/-- `get_processed_files` (reset_processed_tags.py:7-32): keys under the
prefix whose tag set has a `processed=true` tag. -/
def get_processed_files (s : ObjStore) (pfx : String) : List String :=
  s.filterMap (fun o =>
    if strPrefixOf pfx o.key && hasTag o.tags "processed" "true" then some o.key else none)

/-- `reset_processed_tags` flow (reset_processed_tags.py:58-83): list all
`processed=true` objects, then rewrite each tag to `false`. -/
def reset_processed_tags (s : ObjStore) : ObjStore :=
  (get_processed_files s "raw-results/").foldl
    (fun acc k => mark_file_as_unprocessed acc k) s

/-- `fetch_json_from_minio` (compile_lottery_results.py:73-86): read the
object and `json.loads` it; a read failure or malformed body raises (`none`). -/
def fetch_json_from_minio (s : ObjStore) (fp : String) : Option Json :=
  match readPath s fp with
  | some (Content.jsonC j) => some j
  | some (Content.rawC _) => none
  | none => none

/-- One row of the DuckDB table `lottery_results`.  The two JSON columns hold
`json.dumps` of the extracted values; `dumps` is injective, so the Json value
itself is stored. -/
structure LotteryResultRow where
  game_name : String
  draw_number : Int
  draw_date : String
  file_path : String
  winning_numbers : Json
  prize_tiers : Json


abbrev Table := List LotteryResultRow

/-- Row matches the primary key `(game_name, draw_number)`. -/
def keyEq (g : String) (n : Int) (q : LotteryResultRow) : Bool :=
  q.game_name == g && q.draw_number == n

/-- `INSERT ... ON CONFLICT DO NOTHING` on primary key
`(game_name, draw_number)`: append unless a row with the same key exists. -/
def insertRow (tbl : Table) (r : LotteryResultRow) : Table :=
  if tbl.any (keyEq r.game_name r.draw_number) then tbl
  else tbl ++ [r]

/-- Number of rows in the table with the given primary key. -/
def countKey (tbl : Table) (g : String) (n : Int) : Nat :=
  (tbl.filter (keyEq g n)).length

/-- All characters are decimal digits and the string is nonempty. -/
def isDigits (s : String) : Bool := !s.data.isEmpty && s.data.all (fun c => c.isDigit)

/-- Value of a decimal digit string. -/
def digitsToNat (s : String) : Nat := s.data.foldl (fun a c => a * 10 + (c.toNat - 48)) 0

/-- Python `int(s)` on a plain decimal string with optional sign
(whitespace/underscore forms are not used by this pipeline). -/
def pythonInt (s : String) : Option Int :=
  if strPrefixOf "-" s then
    if isDigits (strDrop s 1) then some (-(digitsToNat (strDrop s 1) : Int)) else none
  else if strPrefixOf "+" s then
    if isDigits (strDrop s 1) then some ((digitsToNat (strDrop s 1) : Int)) else none
  else
    if isDigits s then some ((digitsToNat s : Int)) else none

/-- Zero-pad a number to two digits (strftime `%d` / `%m`). -/
def pad2 (n : Nat) : String := if n < 10 then "0" ++ toString n else toString n

/-- Days in a month, with the Gregorian leap-year rule (what
`datetime.strptime` validates against). -/
def daysInMonth (m y : Nat) : Nat :=
  if m == 2 then (if y % 4 == 0 && (y % 100 != 0 || y % 400 == 0) then 29 else 28)
  else if m == 4 || m == 6 || m == 9 || m == 11 then 30
  else 31

/-- `datetime.strptime(raw, "%d/%m/%Y").strftime("%Y-%m-%d")`
(compile_lottery_results.py:141): parse a `day/month/year` string, validating
the calendar date, and reformat it as `YYYY-MM-DD`; `none` when `strptime`
raises. -/
def parseDrawDate (s : String) : Option String :=
  match splitOnChar '/' s with
  | [d, m, y] =>
      if isDigits d && d.length ≤ 2 && isDigits m && m.length ≤ 2
          && isDigits y && y.length ≤ 4 then
        let dn := digitsToNat d
        let mn := digitsToNat m
        let yn := digitsToNat y
        if 1 ≤ mn && mn ≤ 12 && 1 ≤ dn && dn ≤ daysInMonth mn yn then
          some (toString yn ++ "-" ++ pad2 mn ++ "-" ++ pad2 dn)
        else none
      else none
  | _ => none

/-- The row `save_to_duckdb` builds from a payload (compile_lottery_results.py
:136-153): `numero` (numeric) is the draw number, `dataApuracao` is reparsed
into `YYYY-MM-DD`, winning numbers come from `listaDezenas` with fallback key
`dezenasSorteadasOrdemSorteio`, prize tiers from `listaRateioPremio`;
`none` when any extraction raises. -/
def rowOf (data : Json) (game : String) : Option LotteryResultRow :=
  match data.lookup "numero" with
  | some (Json.num n) =>
      match data.lookup "dataApuracao" with
      | some (Json.str ds) =>
          match parseDrawDate ds with
          | some dd =>
              let wkey := if data.hasKey "listaDezenas" then "listaDezenas"
                          else "dezenasSorteadasOrdemSorteio"
              match data.lookup wkey, data.lookup "listaRateioPremio" with
              | some wn, some pt =>
                  some ⟨game, n, dd,
                        "raw-results/" ++ game ++ "/" ++ toString n ++ ".json", wn, pt⟩
              | _, _ => none
          | none => none
      | _ => none
  | _ => none

/-- `save_to_duckdb` (compile_lottery_results.py:129-158): extract the row and
upsert it with conflict-skip; `none` when extraction raises (the task
re-raises to the caller). -/
def save_to_duckdb (data : Json) (game : String) (tbl : Table) : Option Table :=
  (rowOf data game).map (insertRow tbl)

/-- Path parsing in the batch loop (compile_lottery_results.py:208-210):
`parts = file_path.split("/")`, game `= parts[1]`,
draw `= int(parts[2].replace(".json", ""))`; `none` when indexing or `int`
raises.  This happens OUTSIDE the loop's try block. -/
def parse_file_path (fp : String) : Option (String × Int) :=
  match splitOnChar '/' fp with
  | _ :: game :: third :: _ =>
      (pythonInt (strReplace third ".json" "")).map (fun n => (game, n))
  | _ => none

/-- The guarded part of the loop body (compile_lottery_results.py:212-222):
fetch the JSON, upsert the row, and only then flip the tag; any exception is
caught, leaving store and table as they were. -/
def compileStep (s : ObjStore) (tbl : Table) (game fp : String) : ObjStore × Table :=
  match fetch_json_from_minio s fp with
  | none => (s, tbl)
  | some data =>
      match save_to_duckdb data game tbl with
      | none => (s, tbl)
      | some tbl' => (mark_file_as_processed s fp, tbl')

/-- The batch loop (compile_lottery_results.py:205-222).  The Bool is `true`
when the loop aborted: a path-parse failure raises outside the try block, so
the exception propagates, the remaining files are skipped and the flow dies
before the upload. -/
def compileLoop : ObjStore → Table → List String → ObjStore × Table × Bool
  | s, tbl, [] => (s, tbl, false)
  | s, tbl, fp :: rest =>
      match parse_file_path fp with
      | none => (s, tbl, true)
      | some gn =>
          let st := compileStep s tbl gn.1 fp
          compileLoop st.1 st.2 rest

/-- Result of one `compile_lottery_results` run: final bucket state, final
working-copy table, whether `upload_duckdb_to_minio` ran, and whether the
flow died on an uncaught exception. -/
structure CompileRun where
  store : ObjStore
  table : Table
  uploaded : Bool
  aborted : Bool


/-- `compile_lottery_results` flow (compile_lottery_results.py:177-226):
`tbl` is the working copy after the snapshot pull and idempotent table
creation.  With no unprocessed files the flow returns early WITHOUT
uploading; otherwise it runs the batch loop and uploads unless the loop
aborted. -/
def compile_lottery_results (store : ObjStore) (tbl : Table) : CompileRun :=
  let files := get_unprocessed_files store "raw-results/"
  if files.isEmpty then ⟨store, tbl, false, false⟩
  else
    let res := compileLoop store tbl files
    ⟨res.1, res.2.1, !res.2.2, res.2.2⟩

/-! ### The archiver flow (fetch_games_results.py) -/

/-- Python `str()` of a scalar JSON value as used in an f-string path segment
(composite values never occur as `numero` in pipeline payloads). -/
def jsonAsPathStr : Json → String
  | Json.num n => toString n
  | Json.str s => s
  | Json.bool b => if b then "True" else "False"
  | Json.null => "None"
  | Json.arr _ => ""
  | Json.obj _ => ""

/-- `data.get("numero", "latest")` rendered into the path. -/
def fallbackDraw (data : Json) : String :=
  match data.lookup "numero" with
  | some v => jsonAsPathStr v
  | none => "latest"

/-- `draw = draw_number if draw_number else data.get("numero", "latest")`
(fetch_games_results.py:68): note Python falsiness, a passed draw number 0
falls back to the payload field. -/
def resolveDraw (dn : Option Int) (data : Json) : String :=
  match dn with
  | some n => if n == 0 then fallbackDraw data else toString n
  | none => fallbackDraw data

/-- `os.path.join(a, b)` for POSIX paths. -/
def pyPathJoin (a b : String) : String :=
  if strPrefixOf "/" b then b
  else if strIsEmpty a then b
  else if strSuffixOf "/" a then a ++ b
  else a ++ "/" ++ b

/-- `"/".join(parts)` (what `normpath` rebuilds its result with). -/
def joinSlash : List String → String
  | [] => ""
  | [x] => x
  | x :: rest => x ++ "/" ++ joinSlash rest

/-- `os.path.normpath` for POSIX paths: drop empty and `.` segments and
resolve `..` against the stack. -/
def normpath (p : String) : String :=
  let isAbs := strPrefixOf "/" p
  let comps := (splitOnChar '/' p).filter (fun c => !(c == "") && !(c == "."))
  let outComps := comps.foldl (fun acc c =>
    if c == ".." then
      if isAbs then acc.dropLast
      else
        match acc.getLast? with
        | some l => if l == ".." then acc ++ [c] else acc.dropLast
        | none => [c]
    else acc ++ [c]) ([] : List String)
  let body := joinSlash outComps
  if isAbs then "/" ++ body else if strIsEmpty body then "." else body

/-- Environment of one archiver run: the game list (Prefect variable), the
upstream fetch collaborator (`none` collapses every non-200/network failure,
as `fetch_lottery_result` returns None for all of them), and the sets of
object keys on which `write_path` resp. `put_object_tagging` raise. -/
structure ArchiveEnv where
  games : List String
  fetchResult : String → Option Int → Option Json
  writeFails : List String
  tagFails : List String

/-- The archive filename `raw-results/{game}/{draw}.json`
(fetch_games_results.py:69). -/
def canonicalName (data : Json) (game : String) (dn : Option Int) : String :=
  "raw-results/" ++ game ++ "/" ++ resolveDraw dn data ++ ".json"

/-- The normalized candidate path checked against the `raw-results` namespace
(fetch_games_results.py:72-74). -/
def safePathOf (game draw : String) : String :=
  normpath (pyPathJoin (pyPathJoin "raw-results" game) (draw ++ ".json"))

/-- `save_to_minio` (fetch_games_results.py:44-99).  Outer `none` = the task
raises (non-dict data, empty data, or unsafe path).  Otherwise the new store
plus the returned value: `some filename` on a fresh successful write, `none`
(Python None) both when the object already exists (skip) and when the write
itself fails — the two are indistinguishable to the caller. -/
def save_to_minio (env : ArchiveEnv) (store : ObjStore) (data : Json)
    (game : String) (draw_number : Option Int) : Option (ObjStore × Option String) :=
  match data with
  | Json.obj fields =>
      if fields.isEmpty then none
      else
        let draw := resolveDraw draw_number data
        let filename := canonicalName data game draw_number
        let safePath := safePathOf game draw
        if !(strPrefixOf "raw-results" safePath) then none
        else
          let writeBranch :=
            if env.writeFails.contains filename then some (store, (none : Option String))
            else some (writePath store filename (Content.jsonC data), some filename)
          match readPath store filename with
          | some c => if contentTruthy c then some (store, none) else writeBranch
          | none => writeBranch
  | _ => none

/-- The per-game loop of `fetch_lottery_results` (fetch_games_results.py:143-
171).  The Bool is `true` when the flow aborted: `save_to_minio` raising, or
`tag_file_as_unprocessed` raising (it re-raises and the flow does not catch
it), kills the batch; fetch failures and falsy payloads just `continue`. -/
def fetchGamesLoop (env : ArchiveEnv) (dn : Option Int) :
    ObjStore → List String → ObjStore × Bool
  | store, [] => (store, false)
  | store, g :: rest =>
      match env.fetchResult g dn with
      | none => fetchGamesLoop env dn store rest
      | some results =>
          if jsonFalsy results then fetchGamesLoop env dn store rest
          else
            match save_to_minio env store results g dn with
            | none => (store, true)
            | some (store', none) => fetchGamesLoop env dn store' rest
            | some (store', some fn) =>
                if env.tagFails.contains fn then (store', true)
                else fetchGamesLoop env dn (tag_file_as_unprocessed store' fn) rest

/-- `fetch_lottery_results` flow (fetch_games_results.py:122-173): an empty
game list raises; otherwise run the per-game loop. -/
def fetch_lottery_results (env : ArchiveEnv) (dn : Option Int) (store : ObjStore) :
    ObjStore × Bool :=
  if env.games.isEmpty then (store, true)
  else fetchGamesLoop env dn store env.games


/-! ### Concrete data for witnesses and counterexamples -/

/-- The example payload of spec §8: draw 3200 of lotofacil. -/
def payload3200 : Json :=
  Json.obj [("numero", Json.num 3200), ("dataApuracao", Json.str "01/01/2024"),
    ("listaDezenas", Json.arr [Json.str "01", Json.str "02", Json.str "03"]),
    ("listaRateioPremio", Json.arr [Json.obj [("faixa", Json.num 1),
      ("numeroDeGanhadores", Json.num 0), ("valorPremio", Json.num 0)]])]

/-- Canonical path of that draw. -/
def path3200 : String := "raw-results/lotofacil/3200.json"

/-- The row the Compiler builds from `payload3200`. -/
def row3200 : LotteryResultRow :=
  ⟨"lotofacil", 3200, "2024-01-01", path3200,
   Json.arr [Json.str "01", Json.str "02", Json.str "03"],
   Json.arr [Json.obj [("faixa", Json.num 1), ("numeroDeGanhadores", Json.num 0),
     ("valorPremio", Json.num 0)]]⟩

/-- Archiver environment with no storage failures. -/
def envPlain : ArchiveEnv := ⟨["lotofacil"], fun _ _ => some payload3200, [], []⟩

/-- A minimal valid payload for draws of games `a` and `b`. -/
def payload1 : Json := Json.obj [("numero", Json.num 1)]

/-- Archiver environment in which tagging `raw-results/a/1.json` raises. -/
def envTagFail : ArchiveEnv :=
  ⟨["a", "b"], fun _ _ => some payload1, [], ["raw-results/a/1.json"]⟩

/-- Archiver environment in which the object write for `raw-results/a/1.json`
raises. -/
def envWriteFail : ArchiveEnv :=
  ⟨["a"], fun _ _ => some payload1, ["raw-results/a/1.json"], []⟩

/-- A raw file whose path segment `abc.json` does not parse as a draw number. -/
def badPathEntry : ObjEntry :=
  ⟨"raw-results/lotofacil/abc.json", Content.jsonC payload3200, [("processed", "false")]⟩

/-- A perfectly compilable raw file. -/
def goodEntry : ObjEntry :=
  ⟨"raw-results/lotofacil/2.json", Content.jsonC payload3200, [("processed", "false")]⟩

/-- A raw file whose bytes are not valid JSON. -/
def badJsonEntry : ObjEntry :=
  ⟨"raw-results/lotofacil/7.json", Content.rawC "oops", [("processed", "false")]⟩

/-- Archiver environment whose upstream fetch always fails (non-200/network). -/
def envFetchFail : ArchiveEnv := ⟨["a"], fun _ _ => none, [], []⟩

/-! ### Claim theorems -/

/-- C9: archiving lotofacil draw 3200 with the example payload stores the
object at `raw-results/lotofacil/3200.json`, tagging marks it
`processed=false`, and one Compiler run yields exactly the row
`("lotofacil", 3200, 2024-01-01, raw-results/lotofacil/3200.json,
["01","02","03"], prize tiers)` and flips the tag to `processed=true`. -/
theorem c9_example_scenario :
    save_to_minio envPlain [] payload3200 "lotofacil" (some 3200) =
      some ([⟨path3200, Content.jsonC payload3200, []⟩], some path3200) ∧
    tag_file_as_unprocessed [⟨path3200, Content.jsonC payload3200, []⟩] path3200 =
      [⟨path3200, Content.jsonC payload3200, [("processed", "false")]⟩] ∧
    compile_lottery_results
        [⟨path3200, Content.jsonC payload3200, [("processed", "false")]⟩] [] =
      ⟨[⟨path3200, Content.jsonC payload3200, [("processed", "true")]⟩],
       [row3200], true, false⟩ :=
  ⟨rfl, rfl, rfl⟩

/-- C6 counterexample: with a bucket whose only raw object is already
`processed=true`, the unprocessed list is empty and the flow returns early
WITHOUT uploading the working copy — the upload is not unconditional. -/
theorem c6_counterexample :
    (compile_lottery_results
      [⟨path3200, Content.jsonC payload3200, [("processed", "true")]⟩]
      [row3200]).uploaded = false := rfl

/-- C6 amended: the snapshot upload runs after the batch whenever at least
one unprocessed file was found and the batch loop did not die on an uncaught
exception — even if every file in it failed to compile; with zero unprocessed
files the flow returns early without uploading. -/
theorem c6_upload_after_nonempty_batch (s : ObjStore) (tbl : Table)
    (hne : get_unprocessed_files s "raw-results/" ≠ [])
    (hab : (compile_lottery_results s tbl).aborted = false) :
    (compile_lottery_results s tbl).uploaded = true := by
  rcases he : compileLoop s tbl (get_unprocessed_files s "raw-results/") with ⟨s2, tbl2, ab⟩
  have h1 : (get_unprocessed_files s "raw-results/").isEmpty = false := by
    cases h : get_unprocessed_files s "raw-results/"
    · exact absurd h hne
    · rfl
  simp only [compile_lottery_results, h1, Bool.false_eq_true, if_false, he] at hab ⊢
  simp [hab]

/-- C6 amended, witness: one unprocessed compilable file → upload happens. -/
theorem c6_upload_after_nonempty_batch_witness :
    (compile_lottery_results [goodEntry] []).uploaded = true :=
  c6_upload_after_nonempty_batch [goodEntry] [] (by decide) (by rfl)

/-- C5 counterexample: a batch of two unprocessed files where the first has a
path whose draw segment `abc.json` cannot be parsed: the claim promises the
second (perfectly compilable) file is still compiled and tagged, but the
parse failure raises outside the per-file handler, the loop dies, the table
stays empty and the good file is still tagged unprocessed. -/
theorem c5_counterexample :
    (compile_lottery_results [badPathEntry, goodEntry] []).table = [] ∧
    (compile_lottery_results [badPathEntry, goodEntry] []).aborted = true ∧
    get_unprocessed_files (compile_lottery_results [badPathEntry, goodEntry] []).store
      "raw-results/" = [badPathEntry.key, goodEntry.key] :=
  ⟨rfl, rfl, rfl⟩

/-- C5 amended: a failure while loading or JSON-parsing the payload, or while
writing the row, aborts only that one file — the loop continues with the
remaining files and the state is untouched; a malformed PATH, however, raises
outside the per-file handler and kills the rest of the batch. -/
theorem c5_payload_failure_isolated (s : ObjStore) (tbl : Table) (fp game : String)
    (n : Int) (rest : List String)
    (hp : parse_file_path fp = some (game, n))
    (hfail : fetch_json_from_minio s fp = none ∨
      ∃ d, fetch_json_from_minio s fp = some d ∧ save_to_duckdb d game tbl = none) :
    compileLoop s tbl (fp :: rest) = compileLoop s tbl rest := by
  rcases hfail with hf | ⟨d, hd, hsave⟩
  · simp [compileLoop, hp, compileStep, hf]
  · simp [compileLoop, hp, compileStep, hd, hsave]

/-- C5 amended, witness: a file with unparseable JSON bytes is skipped and the
loop continues with the next file. -/
theorem c5_payload_failure_isolated_witness :
    compileLoop [badJsonEntry, goodEntry] [] [badJsonEntry.key, goodEntry.key] =
      compileLoop [badJsonEntry, goodEntry] [] [goodEntry.key] :=
  c5_payload_failure_isolated [badJsonEntry, goodEntry] [] badJsonEntry.key
    "lotofacil" 7 [goodEntry.key] (by decide) (Or.inl rfl)

/-- C8 counterexample: tagging `raw-results/a/1.json` fails after a successful
write; the claim promises this is never propagated, but
`tag_file_as_unprocessed` re-raises and the flow does not catch it: the batch
aborts, game `b` is never archived (only a's untagged object remains). -/
theorem c8_counterexample :
    fetch_lottery_results envTagFail none [] =
      ([⟨"raw-results/a/1.json", Content.jsonC payload1, []⟩], true) := rfl

/-- C8 amended: a fetch failure (non-200 or network error, which
`fetch_lottery_result` collapses to None) or an empty payload is skipped
without aborting the batch over the remaining games; a failure while tagging
the newly written object, however, propagates and aborts the batch (the raw
object itself stays archived). -/
theorem c8_fetch_failures_isolated (env : ArchiveEnv) (dn : Option Int)
    (store : ObjStore) (g : String) (rest : List String)
    (h : env.fetchResult g dn = none ∨
      ∃ r, env.fetchResult g dn = some r ∧ jsonFalsy r = true) :
    fetchGamesLoop env dn store (g :: rest) = fetchGamesLoop env dn store rest := by
  rcases h with hf | ⟨r, hr, hfal⟩
  · simp [fetchGamesLoop, hf]
  · simp [fetchGamesLoop, hr, hfal]

/-- C8 amended, witness: a failing fetch for game `a` leaves the loop to
continue with the rest of the game list. -/
theorem c8_fetch_failures_isolated_witness :
    fetchGamesLoop envFetchFail none [] ["a", "b"] =
      fetchGamesLoop envFetchFail none [] ["b"] :=
  c8_fetch_failures_isolated envFetchFail none [] "a" ["b"] (Or.inl rfl)

/-- A tag set contains `k=v` exactly when the pair is a member. -/
lemma hasTag_iff (ts : List (String × String)) (k v : String) :
    hasTag ts k v = true ↔ (k, v) ∈ ts := by
  unfold hasTag
  rw [List.any_eq_true]
  constructor
  · rintro ⟨t, ht, hb⟩
    obtain ⟨h1, h2⟩ : t.1 == k ∧ t.2 == v := by simpa using hb
    have e1 : t.1 = k := by simpa using h1
    have e2 : t.2 = v := by simpa using h2
    clear h1 h2
    have : t = (k, v) := by cases t; simp_all
    rwa [← this]
  · intro hm
    exact ⟨(k, v), hm, by simp⟩

/-- C2: once `save_to_duckdb` has succeeded for a payload, running it again
against the resulting table is a silent no-op: the row insert conflicts on
`(game_name, draw_number)` and is skipped, leaving exactly one row for that
key — first write wins. -/
theorem c2_upsert_idempotent (data : Json) (game : String) (tbl tbl2 : Table)
    (r : LotteryResultRow) (hr : rowOf data game = some r)
    (h1 : save_to_duckdb data game tbl = some tbl2)
    (hcnt : countKey tbl r.game_name r.draw_number ≤ 1) :
    save_to_duckdb data game tbl2 = some tbl2 ∧
    countKey tbl2 r.game_name r.draw_number = 1 := by
  have hself : keyEq r.game_name r.draw_number r = true := by simp [keyEq]
  have ht : tbl2 = insertRow tbl r := by
    simp only [save_to_duckdb, hr, Option.map_some] at h1
    exact (Option.some.inj h1).symm
  subst ht
  unfold insertRow
  by_cases hany : tbl.any (keyEq r.game_name r.draw_number) = true
  · rw [if_pos hany]
    refine ⟨by simp [save_to_duckdb, hr, insertRow, hany], ?_⟩
    rcases List.any_eq_true.mp hany with ⟨q, hq, hkq⟩
    have hpos : 0 < countKey tbl r.game_name r.draw_number := by
      unfold countKey
      exact List.length_pos.mpr (fun hnil => by
        simpa [hnil] using List.mem_filter.mpr ⟨hq, hkq⟩)
    omega
  · rw [if_neg hany]
    have hc0 : countKey tbl r.game_name r.draw_number = 0 := by
      unfold countKey
      rw [List.length_eq_zero, List.filter_eq_nil_iff]
      intro q hq hk
      exact hany (List.any_eq_true.mpr ⟨q, hq, hk⟩)
    constructor
    · simp [save_to_duckdb, hr, insertRow, List.any_append, hself]
    · unfold countKey at hc0 ⊢
      rw [List.filter_append]
      simp [hself, hc0]

/-- C2, witness: compiling the example payload twice against an empty table
yields exactly one row for `("lotofacil", 3200)`. -/
theorem c2_upsert_idempotent_witness :
    save_to_duckdb payload3200 "lotofacil" [row3200] = some [row3200] ∧
    countKey [row3200] "lotofacil" 3200 = 1 :=
  c2_upsert_idempotent payload3200 "lotofacil" [] [row3200] row3200
    (by rfl) (by rfl) (by decide)

/-- C7: the unprocessed scan lists a key exactly when some stored object has
that key under the `raw-results/` prefix and carries a `processed=false` tag;
and an object with no `processed` tag at all is invisible to both the
unprocessed and the processed scan. -/
theorem c7_scan_membership (s : ObjStore) (k : String) :
    (k ∈ get_unprocessed_files s "raw-results/" ↔
      ∃ o ∈ s, o.key = k ∧ strPrefixOf "raw-results/" k = true ∧
        ("processed", "false") ∈ o.tags) ∧
    ((∀ o ∈ s, o.key = k → ∀ v, ("processed", v) ∉ o.tags) →
      k ∉ get_unprocessed_files s "raw-results/" ∧
      k ∉ get_processed_files s "raw-results/") := by
  have hmem : ∀ v : String, ∀ m ∈ s.filterMap (fun o =>
      if strPrefixOf "raw-results/" o.key && hasTag o.tags "processed" v
      then some o.key else none),
      ∃ o ∈ s, o.key = m ∧ strPrefixOf "raw-results/" m = true ∧
        ("processed", v) ∈ o.tags := by
    intro v m hm
    rcases List.mem_filterMap.mp hm with ⟨o, ho, hif⟩
    by_cases hc : (strPrefixOf "raw-results/" o.key && hasTag o.tags "processed" v) = true
    · rw [if_pos hc] at hif
      obtain rfl : o.key = m := Option.some.inj hif
      obtain ⟨hp, htag⟩ : strPrefixOf "raw-results/" o.key = true ∧
          hasTag o.tags "processed" v = true := by simpa using hc
      exact ⟨o, ho, rfl, hp, (hasTag_iff _ _ _).mp htag⟩
    · rw [if_neg hc] at hif
      cases hif
  constructor
  · constructor
    · intro hk
      exact hmem "false" k hk
    · rintro ⟨o, ho, rfl, hpfx, htag⟩
      unfold get_unprocessed_files
      exact List.mem_filterMap.mpr ⟨o, ho,
        by rw [if_pos (by rw [hpfx, (hasTag_iff _ _ _).mpr htag]; rfl)]⟩
  · intro hno
    constructor
    · intro hk
      rcases hmem "false" k hk with ⟨o, ho, hkey, hpfx2, htag⟩
      exact hno o ho hkey "false" htag
    · intro hk
      rcases hmem "true" k hk with ⟨o, ho, hkey, hpfx2, htag⟩
      exact hno o ho hkey "true" htag

/-- C7, witness: the scans applied to a two-object bucket — the tagged object
is listed as unprocessed, the untagged one is invisible to both scans. -/
theorem c7_scan_membership_witness :
    goodEntry.key ∈ get_unprocessed_files
        [goodEntry, ⟨path3200, Content.jsonC payload3200, []⟩] "raw-results/" ∧
    path3200 ∉ get_unprocessed_files
        [goodEntry, ⟨path3200, Content.jsonC payload3200, []⟩] "raw-results/" ∧
    path3200 ∉ get_processed_files
        [goodEntry, ⟨path3200, Content.jsonC payload3200, []⟩] "raw-results/" := by
  refine ⟨?_, ?_, ?_⟩
  · exact (c7_scan_membership [goodEntry, ⟨path3200, Content.jsonC payload3200, []⟩]
      goodEntry.key).1.mpr ⟨goodEntry, by simp, rfl, by decide, by decide⟩
  · exact ((c7_scan_membership [goodEntry, ⟨path3200, Content.jsonC payload3200, []⟩]
      path3200).2 (by
        intro o ho hkey v hv
        simp only [List.mem_cons, List.not_mem_nil, or_false] at ho
        rcases ho with rfl | rfl
        · exact absurd hkey (by decide)
        · simp at hv)).1
  · exact ((c7_scan_membership [goodEntry, ⟨path3200, Content.jsonC payload3200, []⟩]
      path3200).2 (by
        intro o ho hkey v hv
        simp only [List.mem_cons, List.not_mem_nil, or_false] at ho
        rcases ho with rfl | rfl
        · exact absurd hkey (by decide)
        · simp at hv)).2

/-- C10: when the object write inside `save_to_minio` fails, the error is
caught and the task returns None — exactly the value returned for the
already-exists skip, so the caller cannot tell a failed write from a no-op;
the flow then applies no `processed=false` tag and simply continues with the
remaining games. -/
theorem c10_write_failure_silent (env : ArchiveEnv) (store : ObjStore)
    (fields : List (String × Json)) (game : String) (dn : Option Int)
    (rest : List String)
    (hne : fields.isEmpty = false)
    (hsafe : strPrefixOf "raw-results"
      (safePathOf game (resolveDraw dn (Json.obj fields))) = true)
    (habs : readPath store (canonicalName (Json.obj fields) game dn) = none)
    (hfail : env.writeFails.contains (canonicalName (Json.obj fields) game dn) = true) :
    save_to_minio env store (Json.obj fields) game dn = some (store, none) ∧
    (∀ st2 c, readPath st2 (canonicalName (Json.obj fields) game dn) = some c →
      contentTruthy c = true →
      save_to_minio env st2 (Json.obj fields) game dn = some (st2, none)) ∧
    (env.fetchResult game dn = some (Json.obj fields) →
      fetchGamesLoop env dn store (game :: rest) = fetchGamesLoop env dn store rest) := by
  have hfail2 : canonicalName (Json.obj fields) game dn ∈ env.writeFails := by
    simpa using hfail
  have hsave : save_to_minio env store (Json.obj fields) game dn = some (store, none) := by
    simp [save_to_minio, hne, hsafe, habs, hfail2]
  refine ⟨hsave, ?_, ?_⟩
  · intro st2 c hread htru
    simp [save_to_minio, hne, hsafe, hread, htru]
  · intro hfetch
    have hfal : jsonFalsy (Json.obj fields) = false := by simpa [jsonFalsy] using hne
    simp [fetchGamesLoop, hfetch, hfal, hsave]

/-- C10, witness: a failing write for `raw-results/a/1.json` returns None and
the archiver batch continues untouched. -/
theorem c10_write_failure_silent_witness :
    save_to_minio envWriteFail [] payload1 "a" none = some ([], none) ∧
    fetchGamesLoop envWriteFail none [] ["a", "b"] =
      fetchGamesLoop envWriteFail none [] ["b"] := by
  have h := c10_write_failure_silent envWriteFail [] [("numero", Json.num 1)]
    "a" none ["b"] (by rfl) (by decide) (by rfl) (by decide)
  exact ⟨h.1, h.2.2 rfl⟩

/-- The object at key `k` in `s` is tagged `processed=v`. -/
def taggedWith (s : ObjStore) (k v : String) : Prop :=
  ∃ o ∈ s, o.key = k ∧ ("processed", v) ∈ o.tags

/-- `setProcessedTo v true` always leaves a `processed=v` tag in the set. -/
lemma mem_setProcessedTo_true (v : String) (ts : List (String × String)) :
    ("processed", v) ∈ setProcessedTo v true ts := by
  induction ts with
  | nil => simp [setProcessedTo]
  | cons t rest ih =>
      by_cases h : t.1 == "processed"
      · simp [setProcessedTo, h]
      · simp only [setProcessedTo, h, Bool.false_eq_true, if_false, List.mem_cons]
        exact Or.inr ih

/-- Step equation: a payload-fetch failure is caught, state untouched. -/
lemma compileStep_fetch_none {s : ObjStore} {tbl : Table} {game fp : String}
    (h : fetch_json_from_minio s fp = none) :
    compileStep s tbl game fp = (s, tbl) := by
  simp [compileStep, h]

/-- Step equation: an upsert failure is caught, state untouched. -/
lemma compileStep_save_none {s : ObjStore} {tbl : Table} {game fp : String}
    {d : Json} (hd : fetch_json_from_minio s fp = some d)
    (hs : save_to_duckdb d game tbl = none) :
    compileStep s tbl game fp = (s, tbl) := by
  simp [compileStep, hd, hs]

/-- Step equation: on success the row goes in and only then the tag flips. -/
lemma compileStep_success {s : ObjStore} {tbl : Table} {game fp : String}
    {d : Json} {tbl2 : Table} (hd : fetch_json_from_minio s fp = some d)
    (hs : save_to_duckdb d game tbl = some tbl2) :
    compileStep s tbl game fp = (mark_file_as_processed s fp, tbl2) := by
  simp [compileStep, hd, hs]

/-- C1: in the per-file procedure, the file's tag is flipped to `true`
exactly when the payload fetch AND the row upsert both succeeded; if either
fails the store is left exactly as found; and a path-parse failure also
leaves the store exactly as found (the loop dies before touching it). -/
theorem c1_tag_flip_only_after_upsert (s : ObjStore) (tbl : Table)
    (game fp : String) (s2 : ObjStore) (tbl2 : Table) (rest : List String)
    (hstep : compileStep s tbl game fp = (s2, tbl2))
    (hf : ∃ o ∈ s, o.key = fp ∧ ("processed", "false") ∈ o.tags)
    (hnotrue : ∀ o ∈ s, o.key = fp → ("processed", "true") ∉ o.tags) :
    (taggedWith s2 fp "true" ↔
      ∃ d tbl3, fetch_json_from_minio s fp = some d ∧
        save_to_duckdb d game tbl = some tbl3) ∧
    ((fetch_json_from_minio s fp = none ∨
        ∃ d, fetch_json_from_minio s fp = some d ∧ save_to_duckdb d game tbl = none) →
      s2 = s) ∧
    (parse_file_path fp = none → (compileLoop s tbl (fp :: rest)).1 = s) := by
  have hnos : ¬ taggedWith s fp "true" := by
    rintro ⟨o, ho, hkey, htag⟩
    exact hnotrue o ho hkey htag
  refine ⟨?_, ?_, ?_⟩
  · cases hfetch : fetch_json_from_minio s fp with
    | none =>
        rw [compileStep_fetch_none hfetch] at hstep
        injection hstep with h1 h2
        subst h1
        constructor
        · intro h; exact absurd h hnos
        · rintro ⟨d, tbl3, hd, hsv⟩
          cases hd
    | some d =>
        cases hsave : save_to_duckdb d game tbl with
        | none =>
            rw [compileStep_save_none hfetch hsave] at hstep
            injection hstep with h1 h2
            subst h1
            constructor
            · intro h; exact absurd h hnos
            · rintro ⟨d2, tbl3, hd2, hsv⟩
              obtain rfl : d = d2 := Option.some.inj hd2
              rw [hsave] at hsv; cases hsv
        | some tbl3 =>
            rw [compileStep_success hfetch hsave] at hstep
            injection hstep with h1 h2
            subst h1
            constructor
            · intro _; exact ⟨d, tbl3, rfl, hsave⟩
            · intro _
              rcases hf with ⟨o, ho, hkey, htagf⟩
              refine ⟨{ o with tags := setProcessedTo "true" true o.tags }, ?_, hkey, ?_⟩
              · unfold mark_file_as_processed updateTags
                refine List.mem_map.mpr ⟨o, ho, ?_⟩
                rw [if_pos (by simp [hkey])]
              · exact mem_setProcessedTo_true "true" o.tags
  · intro hfail
    rcases hfail with hfetch | ⟨d, hfetch, hsave⟩
    · rw [compileStep_fetch_none hfetch] at hstep
      injection hstep with h1 h2
      exact h1.symm
    · rw [compileStep_save_none hfetch hsave] at hstep
      injection hstep with h1 h2
      exact h1.symm
  · intro hparse
    simp [compileLoop, hparse]

/-- C1, witness: a file whose bytes fail to JSON-parse is left exactly as
found and not tagged `true`; the iff instantiates to both sides false. -/
theorem c1_tag_flip_only_after_upsert_witness :
    ¬ taggedWith [badJsonEntry] badJsonEntry.key "true" := by
  have h := c1_tag_flip_only_after_upsert [badJsonEntry] [] "lotofacil"
    badJsonEntry.key [badJsonEntry] [] []
    (by rfl)
    ⟨badJsonEntry, by simp, rfl, by decide⟩
    (by
      intro o ho hkey hv
      simp only [List.mem_cons, List.not_mem_nil, or_false] at ho
      subst ho
      simp [badJsonEntry] at hv)
  intro htag
  rcases (h.1.mp htag) with ⟨d, tbl3, hd, hsv⟩
  rw [show fetch_json_from_minio [badJsonEntry] badJsonEntry.key = none from rfl] at hd
  cases hd

/-- Number of stored objects at a key. -/
def objCount (s : ObjStore) (k : String) : Nat :=
  (s.filter (fun o => o.key == k)).length

/-- An entry transformation that preserves keys also preserves the result of
`find?` by key, up to that transformation. -/
lemma find?_updateLike (s : ObjStore) (k2 : String)
    (f : ObjEntry → ObjEntry) (hk : ∀ o, (f o).key = o.key) :
    (s.map f).find? (fun o => o.key == k2) =
      (s.find? (fun o => o.key == k2)).map f := by
  rw [List.find?_map]
  have : ((fun o : ObjEntry => o.key == k2) ∘ f) = (fun o : ObjEntry => o.key == k2) :=
    funext (fun o => by simp [hk o])
  rw [this]

/-- Reading back the key just written yields the new content. -/
lemma readPath_writePath_self (s : ObjStore) (k : String) (c : Content) :
    readPath (writePath s k c) k = some c := by
  unfold readPath writePath
  by_cases h : s.any (fun o => o.key == k) = true
  · rw [if_pos h]
    obtain ⟨o0, ho0⟩ : ∃ o0, s.find? (fun o => o.key == k) = some o0 := by
      rw [← Option.isSome_iff_exists, List.find?_isSome]
      exact List.any_eq_true.mp h
    rw [find?_updateLike s k _ (fun o => by by_cases ho : (o.key == k) = true <;> simp [ho])]
    rw [ho0]
    have hkey : o0.key = k := by
      have := List.find?_some ho0
      simpa using this
    simp [hkey]
  · rw [if_neg h]
    rw [List.find?_append]
    rw [List.find?_eq_none.mpr (fun o ho => by
      intro hcon
      exact h (List.any_eq_true.mpr ⟨o, ho, hcon⟩))]
    simp

/-- A store with no duplicate keys holds at most one object per key. -/
lemma objCount_le_one (s : ObjStore) (k : String)
    (hnd : (s.map ObjEntry.key).Nodup) : objCount s k ≤ 1 := by
  induction s with
  | nil => simp [objCount]
  | cons o rest ih =>
      rw [List.map_cons, List.nodup_cons] at hnd
      by_cases ho : (o.key == k) = true
      · have hz : (rest.filter (fun q => q.key == k)).length = 0 := by
          rw [List.length_eq_zero, List.filter_eq_nil_iff]
          intro q hq hqk
          refine hnd.1 (List.mem_map.mpr ⟨q, hq, ?_⟩)
          have h1 : q.key = k := by simpa using hqk
          have h2 : o.key = k := by simpa using ho
          rw [h1, h2]
        simp only [objCount, List.filter_cons, ho, if_pos, List.length_cons]
        omega
      · simp only [objCount, List.filter_cons, ho, Bool.false_eq_true, if_false]
        exact ih hnd.2

/-- After a write there is exactly one object at the key. -/
lemma objCount_writePath (s : ObjStore) (k : String) (c : Content)
    (hnd : (s.map ObjEntry.key).Nodup) : objCount (writePath s k c) k = 1 := by
  unfold writePath
  by_cases h : s.any (fun o => o.key == k) = true
  · rw [if_pos h]
    have hmap : objCount (s.map (fun o =>
        if o.key == k then { o with content := c, tags := [] } else o)) k =
        objCount s k := by
      unfold objCount
      rw [List.filter_map, List.length_map]
      have hcomp : ((fun o : ObjEntry => o.key == k) ∘ fun o =>
          if o.key == k then { o with content := c, tags := [] } else o) =
          (fun o : ObjEntry => o.key == k) := by
        funext o
        by_cases ho : (o.key == k) = true
        · have ho' : o.key = k := by simpa using ho
          simp [Function.comp, ho']
        · have ho' : ¬ o.key = k := by simpa using ho
          simp [Function.comp, ho']
      rw [hcomp]
    rw [hmap]
    have hle := objCount_le_one s k hnd
    have hpos : 0 < objCount s k := by
      rcases List.any_eq_true.mp h with ⟨o, ho, hok⟩
      unfold objCount
      refine List.length_pos.mpr (fun hnil => ?_)
      have : o ∈ s.filter (fun q => q.key == k) := List.mem_filter.mpr ⟨ho, hok⟩
      simp [hnil] at this
    omega
  · rw [if_neg h]
    unfold objCount
    rw [List.filter_append]
    have hz : s.filter (fun o => o.key == k) = [] := by
      rw [List.filter_eq_nil_iff]
      intro o ho hok
      exact h (List.any_eq_true.mpr ⟨o, ho, hok⟩)
    simp [hz]

/-- C3: once `save_to_minio` has stored an object for a draw, running it
again finds the object at the canonical path, writes nothing, and returns
None (a no-op, not an error): the store still holds exactly one object for
that path, with the original payload. -/
theorem c3_archive_write_once (env : ArchiveEnv) (store store1 : ObjStore)
    (data : Json) (game : String) (dn : Option Int) (fn : String)
    (h1 : save_to_minio env store data game dn = some (store1, some fn))
    (hnd : (store.map ObjEntry.key).Nodup) :
    save_to_minio env store1 data game dn = some (store1, none) ∧
    objCount store1 fn = 1 ∧
    readPath store1 fn = some (Content.jsonC data) := by
  rcases data with _ | b | n | st | elems | fields
  · exact absurd h1 (by simp [save_to_minio])
  · exact absurd h1 (by simp [save_to_minio])
  · exact absurd h1 (by simp [save_to_minio])
  · exact absurd h1 (by simp [save_to_minio])
  · exact absurd h1 (by simp [save_to_minio])
  by_cases hne : fields.isEmpty = true
  · exact absurd h1 (by simp [save_to_minio, hne])
  · by_cases hsafe : strPrefixOf "raw-results"
        (safePathOf game (resolveDraw dn (Json.obj fields))) = true
    · simp only [save_to_minio, hsafe, Bool.not_true, Bool.false_eq_true, if_false] at h1
      rw [if_neg hne] at h1
      have hinv : store1 = writePath store (canonicalName (Json.obj fields) game dn)
            (Content.jsonC (Json.obj fields)) ∧
          fn = canonicalName (Json.obj fields) game dn := by
        split at h1
        · split at h1
          · exact absurd (Prod.mk.inj (Option.some.inj h1)).2 (by simp)
          · split at h1
            · exact absurd (Prod.mk.inj (Option.some.inj h1)).2 (by simp)
            · have h2 := Option.some.inj h1
              exact ⟨(Prod.mk.inj h2).1.symm, (Option.some.inj (Prod.mk.inj h2).2).symm⟩
        · split at h1
          · exact absurd (Prod.mk.inj (Option.some.inj h1)).2 (by simp)
          · have h2 := Option.some.inj h1
            exact ⟨(Prod.mk.inj h2).1.symm, (Option.some.inj (Prod.mk.inj h2).2).symm⟩
      obtain ⟨hst, hfn⟩ := hinv
      subst hst; subst hfn
      have hrd := readPath_writePath_self store
        (canonicalName (Json.obj fields) game dn) (Content.jsonC (Json.obj fields))
      refine ⟨?_, objCount_writePath store _ _ hnd, hrd⟩
      simp [save_to_minio, hne, hsafe, hrd, contentTruthy]
    · exfalso; simp [save_to_minio, hne, hsafe] at h1

/-- C3, witness: archiving lotofacil draw 3200 twice — the second call is a
silent no-op and exactly one object exists at the canonical path. -/
theorem c3_archive_write_once_witness :
    save_to_minio envPlain [⟨path3200, Content.jsonC payload3200, []⟩]
      payload3200 "lotofacil" (some 3200) =
      some ([⟨path3200, Content.jsonC payload3200, []⟩], none) ∧
    objCount [⟨path3200, Content.jsonC payload3200, []⟩] path3200 = 1 ∧
    readPath [⟨path3200, Content.jsonC payload3200, []⟩] path3200 =
      some (Content.jsonC payload3200) :=
  c3_archive_write_once envPlain [] [⟨path3200, Content.jsonC payload3200, []⟩]
    payload3200 "lotofacil" (some 3200) path3200 (by rfl) (by decide)

/-! ### Machinery for the reset-inverse property (C4) -/

/-- Tag updates never change what `readPath` returns. -/
lemma readPath_updateTags (s : ObjStore) (k : String)
    (f : List (String × String) → List (String × String)) (k2 : String) :
    readPath (updateTags s k f) k2 = readPath s k2 := by
  unfold readPath updateTags
  rw [find?_updateLike s k2 _ (fun o => by
    by_cases ho : o.key = k <;> simp [ho])]
  cases s.find? (fun o => o.key == k2) with
  | none => rfl
  | some o =>
      by_cases ho : o.key = k <;> simp [ho]

/-- Tag updates never change what the Compiler reads back. -/
lemma fetch_json_updateTags (s : ObjStore) (k : String)
    (f : List (String × String) → List (String × String)) (fp : String) :
    fetch_json_from_minio (updateTags s k f) fp = fetch_json_from_minio s fp := by
  unfold fetch_json_from_minio
  rw [readPath_updateTags]

/-- The files a batch run will successfully compile and mark, in order: the
computation mirrors `compileLoop`, stopping at the first path-parse failure
(which kills the loop) and collecting the files whose payload loads and whose
row extraction succeeds.  Success depends only on payloads, never on tags or
on the table. -/
def markedKeys (s : ObjStore) : List String → List String
  | [] => []
  | fp :: rest =>
      match parse_file_path fp with
      | none => []
      | some gn =>
          match fetch_json_from_minio s fp with
          | none => markedKeys s rest
          | some d =>
              match rowOf d gn.1 with
              | none => markedKeys s rest
              | some _ => fp :: markedKeys s rest

/-- Tag updates do not change which files a run would mark. -/
lemma markedKeys_updateTags (s : ObjStore) (k : String)
    (f : List (String × String) → List (String × String)) (l : List String) :
    markedKeys (updateTags s k f) l = markedKeys s l := by
  induction l with
  | nil => rfl
  | cons fp rest ih =>
      simp only [markedKeys, fetch_json_updateTags, ih]

/-- Marked files all come from the batch list. -/
lemma markedKeys_subset (s : ObjStore) (l : List String) :
    ∀ k ∈ markedKeys s l, k ∈ l := by
  induction l with
  | nil => intro k hk; simp [markedKeys] at hk
  | cons fp rest ih =>
      intro k hk
      cases hp : parse_file_path fp with
      | none => simp [markedKeys, hp] at hk
      | some gn =>
          cases hf : fetch_json_from_minio s fp with
          | none =>
              simp only [markedKeys, hp, hf] at hk
              exact List.mem_cons_of_mem fp (ih k hk)
          | some d =>
              cases hr : rowOf d gn.1 with
              | none =>
                  simp only [markedKeys, hp, hf, hr] at hk
                  exact List.mem_cons_of_mem fp (ih k hk)
              | some r =>
                  simp only [markedKeys, hp, hf, hr] at hk
                  rcases List.mem_cons.mp hk with h | hk2
                  · rw [h]; exact List.mem_cons_self _ _
                  · exact List.mem_cons_of_mem _ (ih k hk2)

/-- What the batch loop does to the bucket: every file it successfully
compiled gets its first `processed` tag set to `true` (appending one if
absent); everything else is untouched. -/
lemma compileLoop_store_char (files : List String) (s : ObjStore) (tbl : Table)
    (hnd : files.Nodup) :
    (compileLoop s tbl files).1 = s.map (fun o =>
      if (markedKeys s files).contains o.key then
        { o with tags := setProcessedTo "true" true o.tags } else o) := by
  induction files generalizing s tbl with
  | nil =>
      simp [compileLoop, markedKeys]
  | cons fp rest ih =>
      rw [List.nodup_cons] at hnd
      obtain ⟨hfp, hrest⟩ := hnd
      cases hp : parse_file_path fp with
      | none =>
          simp [compileLoop, markedKeys, hp]
      | some gn =>
          simp only [compileLoop, hp]
          cases hf : fetch_json_from_minio s fp with
          | none =>
              rw [compileStep_fetch_none hf]
              simp only [markedKeys, hp, hf]
              exact ih s tbl hrest
          | some d =>
              cases hr : rowOf d gn.1 with
              | none =>
                  have hsave : save_to_duckdb d gn.1 tbl = none := by
                    simp [save_to_duckdb, hr]
                  rw [compileStep_save_none hf hsave]
                  simp only [markedKeys, hp, hf, hr]
                  exact ih s tbl hrest
              | some r =>
                  have hsave : save_to_duckdb d gn.1 tbl = some (insertRow tbl r) := by
                    simp [save_to_duckdb, hr]
                  rw [compileStep_success hf hsave]
                  simp only [markedKeys, hp, hf, hr]
                  rw [ih (mark_file_as_processed s fp) (insertRow tbl r) hrest]
                  unfold mark_file_as_processed
                  rw [markedKeys_updateTags]
                  unfold updateTags
                  rw [List.map_map]
                  apply List.map_congr_left
                  intro o ho
                  have hnotin : fp ∉ markedKeys s rest :=
                    fun hmem => hfp (markedKeys_subset s rest fp hmem)
                  by_cases hk' : o.key = fp
                  · simp [Function.comp, hk', hnotin]
                  · simp [Function.comp, hk']

/-- Folding tag updates over distinct keys is a single pass over the store. -/
lemma foldl_updateTags_char (ks : List String) (s : ObjStore)
    (f : List (String × String) → List (String × String)) (hnd : ks.Nodup) :
    ks.foldl (fun acc k => updateTags acc k f) s =
      s.map (fun o => if ks.contains o.key then { o with tags := f o.tags } else o) := by
  induction ks generalizing s with
  | nil => simp
  | cons k rest ih =>
      rw [List.nodup_cons] at hnd
      simp only [List.foldl_cons]
      rw [ih (updateTags s k f) hnd.2]
      unfold updateTags
      rw [List.map_map]
      apply List.map_congr_left
      intro o ho
      by_cases hk : o.key = k
      · have hkr : k ∉ rest := hnd.1
        simp [Function.comp, hk, hkr]
      · simp [Function.comp, hk]

/-- Keys filtered out of a store form a sublist of its key list. -/
lemma filterMap_key_sublist (s : ObjStore) (p : ObjEntry → Bool) :
    (s.filterMap (fun o => if p o then some o.key else none)).Sublist
      (s.map ObjEntry.key) := by
  induction s with
  | nil => simp
  | cons o rest ih =>
      by_cases hp : p o = true
      · simp only [List.filterMap_cons, hp, if_pos, List.map_cons]
        exact ih.cons₂ o.key
      · simp only [List.filterMap_cons, hp, Bool.false_eq_true, if_false, List.map_cons]
        exact ih.cons o.key

/-- Unmarking a freshly marked tag set restores it exactly, provided the set
had a `processed` tag and every `processed` tag in it carried value
`false`. -/
lemma setProcessedTo_false_true (ts : List (String × String))
    (hex : ∃ t ∈ ts, t.1 = "processed")
    (hfalse : ∀ t ∈ ts, t.1 = "processed" → t.2 = "false") :
    setProcessedTo "false" false (setProcessedTo "true" true ts) = ts := by
  induction ts with
  | nil => rcases hex with ⟨t, ht, _⟩; cases ht
  | cons t rest ih =>
      by_cases h : t.1 = "processed"
      · have h2 : t.2 = "false" := hfalse t (by simp) h
        have ht : t = ("processed", "false") := by cases t; simp_all
        rw [ht]
        simp [setProcessedTo]
      · have hex2 : ∃ u ∈ rest, u.1 = "processed" := by
          rcases hex with ⟨u, hu, hup⟩
          rcases List.mem_cons.mp hu with rfl | hur
          · exact absurd hup h
          · exact ⟨u, hur, hup⟩
        have hb : (t.1 == "processed") = false := by simpa using h
        simp only [setProcessedTo, hb, Bool.false_eq_true, if_false]
        rw [ih hex2 (fun u hu hup => hfalse u (List.mem_cons_of_mem t hu) hup)]

/-- Unpack membership in either scan: the listed key belongs to a stored
object under the prefix whose tags contain `processed=v`. -/
lemma mem_scan_unpack (s : ObjStore) (pfx v k : String)
    (hk : k ∈ s.filterMap (fun o =>
      if strPrefixOf pfx o.key && hasTag o.tags "processed" v
      then some o.key else none)) :
    ∃ o ∈ s, o.key = k ∧ strPrefixOf pfx k = true ∧ ("processed", v) ∈ o.tags := by
  rcases List.mem_filterMap.mp hk with ⟨o, ho, hif⟩
  by_cases hc : (strPrefixOf pfx o.key && hasTag o.tags "processed" v) = true
  · rw [if_pos hc] at hif
    obtain rfl : o.key = k := Option.some.inj hif
    obtain ⟨hp, htag⟩ : strPrefixOf pfx o.key = true ∧
        hasTag o.tags "processed" v = true := by simpa using hc
    exact ⟨o, ho, rfl, hp, (hasTag_iff _ _ _).mp htag⟩
  · rw [if_neg hc] at hif
    cases hif

/-- On a bucket where every `processed` tag carries `false`, marking the
files in `M` makes exactly those the `processed=true` population, provided
they lie under the prefix. -/
lemma get_processed_marked (s : ObjStore) (M : List String)
    (hfalseonly : ∀ o ∈ s, ∀ t ∈ o.tags, t.1 = "processed" → t.2 = "false")
    (hMpfx : ∀ k ∈ M, strPrefixOf "raw-results/" k = true) :
    get_processed_files (s.map (fun o =>
      if M.contains o.key then { o with tags := setProcessedTo "true" true o.tags }
      else o)) "raw-results/" =
    s.filterMap (fun o => if M.contains o.key then some o.key else none) := by
  unfold get_processed_files
  rw [List.filterMap_map]
  apply List.filterMap_congr
  intro o ho
  by_cases hk : o.key ∈ M
  · have htrue : hasTag (setProcessedTo "true" true o.tags) "processed" "true" = true :=
      (hasTag_iff _ _ _).mpr (mem_setProcessedTo_true "true" o.tags)
    simp [Function.comp, hk, hMpfx o.key hk, htrue]
  · have hnot : hasTag o.tags "processed" "true" = false := by
      by_cases hc : hasTag o.tags "processed" "true" = true
      · exfalso
        have hmem := (hasTag_iff _ _ _).mp hc
        have := hfalseonly o ho ("processed", "true") hmem rfl
        simp at this
      · simpa using hc
    simp [Function.comp, hk, hnot]

/-- Resetting after marking restores the original bucket, when the marked
keys are keys of `processed=false` objects under the prefix, the bucket has
no duplicate keys, and every `processed` tag in it carries `false`. -/
lemma reset_restores (s : ObjStore) (M : List String)
    (hnd : (s.map ObjEntry.key).Nodup)
    (hfalseonly : ∀ o ∈ s, ∀ t ∈ o.tags, t.1 = "processed" → t.2 = "false")
    (hM : ∀ k ∈ M, ∃ o ∈ s, o.key = k ∧ ("processed", "false") ∈ o.tags)
    (hMpfx : ∀ k ∈ M, strPrefixOf "raw-results/" k = true) :
    reset_processed_tags (s.map (fun o =>
      if M.contains o.key then { o with tags := setProcessedTo "true" true o.tags }
      else o)) = s := by
  unfold reset_processed_tags
  rw [get_processed_marked s M hfalseonly hMpfx]
  have hPnd : (s.filterMap (fun o => if M.contains o.key then some o.key else none)).Nodup :=
    (filterMap_key_sublist s _).nodup hnd
  show (s.filterMap (fun o => if M.contains o.key then some o.key else none)).foldl
      (fun acc k => updateTags acc k (setProcessedTo "false" false)) _ = s
  rw [foldl_updateTags_char _ _ _ hPnd]
  rw [List.map_map]
  rw [List.map_congr_left (g := fun o => o)]
  · exact List.map_id' s
  · intro o ho
    simp only [Function.comp]
    by_cases hk : o.key ∈ M
    · have hkc : M.contains o.key = true := by simpa using hk
      have hkP : o.key ∈ s.filterMap (fun o => if M.contains o.key then some o.key else none) :=
        List.mem_filterMap.mpr ⟨o, ho, by rw [hkc]; simp⟩
      have hPc : (s.filterMap (fun o =>
          if M.contains o.key then some o.key else none)).contains o.key = true := by
        simpa using hkP
      have hex : ∃ t ∈ o.tags, t.1 = "processed" := by
        rcases hM o.key hk with ⟨o2, ho2, hkey, htag⟩
        have heq : o2 = o := List.inj_on_of_nodup_map hnd ho2 ho hkey
        exact ⟨("processed", "false"), heq ▸ htag, rfl⟩
      rw [if_pos hkc]
      rw [if_pos hPc]
      rw [setProcessedTo_false_true o.tags hex (hfalseonly o ho)]
    · have hkc : M.contains o.key = false := by simpa using hk
      have hkP : o.key ∉ s.filterMap (fun o => if M.contains o.key then some o.key else none) := by
        intro hmem
        rcases List.mem_filterMap.mp hmem with ⟨o2, ho2, hif⟩
        by_cases hc : o2.key ∈ M
        · rw [if_pos (by simpa using hc)] at hif
          exact hk ((Option.some.inj hif) ▸ hc)
        · rw [if_neg (by simpa using hc)] at hif
          cases hif
      have hPc : (s.filterMap (fun o =>
          if M.contains o.key then some o.key else none)).contains o.key = false := by
        simpa using hkP
      have e1 : (if M.contains o.key = true then
          { o with tags := setProcessedTo "true" true o.tags } else o) = o :=
        if_neg (by rw [hkc]; simp)
      rw [e1]
      exact if_neg (by rw [hPc]; simp)

/-- The table contains a row with the given primary key. -/
def tableHasKey (tbl : Table) (g : String) (n : Int) : Bool := tbl.any (keyEq g n)

/-- The inserted row's key is present afterwards. -/
lemma tableHasKey_insertRow_self (tbl : Table) (r : LotteryResultRow) :
    tableHasKey (insertRow tbl r) r.game_name r.draw_number = true := by
  unfold tableHasKey insertRow
  by_cases h : tbl.any (keyEq r.game_name r.draw_number) = true
  · rw [if_pos h]; exact h
  · rw [if_neg h]
    rw [List.any_append]
    simp [keyEq]

/-- Inserting preserves the presence of any key. -/
lemma tableHasKey_insertRow_mono (tbl : Table) (r : LotteryResultRow)
    (g : String) (n : Int) (h : tableHasKey tbl g n = true) :
    tableHasKey (insertRow tbl r) g n = true := by
  unfold tableHasKey at h ⊢
  unfold insertRow
  by_cases hc : tbl.any (keyEq r.game_name r.draw_number) = true
  · rw [if_pos hc]; exact h
  · rw [if_neg hc]
    rw [List.any_append]
    rw [h]
    rfl

/-- Inserting a row whose key already exists is a no-op. -/
lemma insertRow_of_hasKey (tbl : Table) (r : LotteryResultRow)
    (h : tableHasKey tbl r.game_name r.draw_number = true) : insertRow tbl r = tbl := by
  unfold tableHasKey at h
  unfold insertRow
  rw [if_pos h]

/-- Keys only accumulate over a batch run. -/
lemma compileLoop_table_mono (files : List String) (s : ObjStore) (tbl : Table)
    (g : String) (n : Int) (h : tableHasKey tbl g n = true) :
    tableHasKey (compileLoop s tbl files).2.1 g n = true := by
  induction files generalizing s tbl with
  | nil => simpa [compileLoop] using h
  | cons fp rest ih =>
      cases hp : parse_file_path fp with
      | none => simpa [compileLoop, hp] using h
      | some gn =>
          simp only [compileLoop, hp]
          cases hf : fetch_json_from_minio s fp with
          | none =>
              rw [compileStep_fetch_none hf]
              exact ih s tbl h
          | some d =>
              cases hr : rowOf d gn.1 with
              | none =>
                  have hsave : save_to_duckdb d gn.1 tbl = none := by
                    simp [save_to_duckdb, hr]
                  rw [compileStep_save_none hf hsave]
                  exact ih s tbl h
              | some r =>
                  have hsave : save_to_duckdb d gn.1 tbl = some (insertRow tbl r) := by
                    simp [save_to_duckdb, hr]
                  rw [compileStep_success hf hsave]
                  exact ih (mark_file_as_processed s fp) (insertRow tbl r)
                    (tableHasKey_insertRow_mono tbl r g n h)

/-- Re-running the batch against a table that already contains every key the
original run ended with changes nothing: the loop visits the same files,
reaches the same final store and abort flag, and leaves the table as is. -/
lemma compileLoop_stable (files : List String) (s : ObjStore) (tbl T : Table)
    (s1 : ObjStore) (tbl1 : Table) (ab : Bool)
    (hrun : compileLoop s tbl files = (s1, tbl1, ab))
    (hT : ∀ g n, tableHasKey tbl1 g n = true → tableHasKey T g n = true) :
    compileLoop s T files = (s1, T, ab) := by
  induction files generalizing s tbl T with
  | nil =>
      simp only [compileLoop] at hrun ⊢
      injection hrun with h1 h23
      injection h23 with h2 h3
      subst h1; subst h3
      rfl
  | cons fp rest ih =>
      cases hp : parse_file_path fp with
      | none =>
          simp only [compileLoop, hp] at hrun ⊢
          injection hrun with h1 h23
          injection h23 with h2 h3
          subst h1; subst h3
          rfl
      | some gn =>
          simp only [compileLoop, hp] at hrun ⊢
          cases hf : fetch_json_from_minio s fp with
          | none =>
              rw [compileStep_fetch_none hf] at hrun ⊢
              exact ih s tbl T hrun hT
          | some d =>
              cases hr : rowOf d gn.1 with
              | none =>
                  have hsave : save_to_duckdb d gn.1 tbl = none := by
                    simp [save_to_duckdb, hr]
                  have hsaveT : save_to_duckdb d gn.1 T = none := by
                    simp [save_to_duckdb, hr]
                  rw [compileStep_save_none hf hsave] at hrun
                  rw [compileStep_save_none hf hsaveT]
                  exact ih s tbl T hrun hT
              | some r =>
                  have hsave : save_to_duckdb d gn.1 tbl = some (insertRow tbl r) := by
                    simp [save_to_duckdb, hr]
                  have hsaveT : save_to_duckdb d gn.1 T = some (insertRow T r) := by
                    simp [save_to_duckdb, hr]
                  rw [compileStep_success hf hsave] at hrun
                  rw [compileStep_success hf hsaveT]
                  have hkey : tableHasKey tbl1 r.game_name r.draw_number = true := by
                    have h0 := tableHasKey_insertRow_self tbl r
                    have := compileLoop_table_mono rest (mark_file_as_processed s fp)
                      (insertRow tbl r) r.game_name r.draw_number h0
                    rw [hrun] at this
                    exact this
                  rw [insertRow_of_hasKey T r (hT r.game_name r.draw_number hkey)]
                  exact ih (mark_file_as_processed s fp) (insertRow tbl r) T hrun hT

/-- C4: on a bucket with unique keys whose `processed` tags all read `false`
(no object is already marked compiled), running the Compiler, then
`reset_processed_tags`, then the Compiler again reproduces exactly the table
the first run ended with: compilation is a pure function of the raw payloads,
and every re-upsert lands on an existing `(game_name, draw_number)` key. -/
theorem c4_reset_then_recompile (s : ObjStore) (tbl : Table)
    (hnd : (s.map ObjEntry.key).Nodup)
    (hfalseonly : ∀ o ∈ s, ∀ t ∈ o.tags, t.1 = "processed" → t.2 = "false") :
    (compile_lottery_results
        (reset_processed_tags (compile_lottery_results s tbl).store)
        (compile_lottery_results s tbl).table).table =
      (compile_lottery_results s tbl).table := by
  by_cases hemp : (get_unprocessed_files s "raw-results/").isEmpty = true
  · have h1 : compile_lottery_results s tbl = ⟨s, tbl, false, false⟩ := by
      unfold compile_lottery_results
      rw [if_pos hemp]
    have hpz : get_processed_files s "raw-results/" = [] := by
      unfold get_processed_files
      rw [List.filterMap_eq_nil_iff]
      intro o ho
      by_cases hc : (strPrefixOf "raw-results/" o.key &&
          hasTag o.tags "processed" "true") = true
      · exfalso
        obtain ⟨hp2, ht2⟩ : strPrefixOf "raw-results/" o.key = true ∧
            hasTag o.tags "processed" "true" = true := by simpa using hc
        have hmem := (hasTag_iff _ _ _).mp ht2
        have := hfalseonly o ho ("processed", "true") hmem rfl
        simp at this
      · rw [if_neg hc]
    have hreset : reset_processed_tags s = s := by
      unfold reset_processed_tags
      rw [hpz]
      rfl
    rw [h1]
    show (compile_lottery_results (reset_processed_tags s) tbl).table = tbl
    rw [hreset, h1]
  · have hfilesnd : (get_unprocessed_files s "raw-results/").Nodup :=
      (filterMap_key_sublist s
        (fun o => strPrefixOf "raw-results/" o.key &&
          hasTag o.tags "processed" "false")).nodup hnd
    rcases hrun : compileLoop s tbl (get_unprocessed_files s "raw-results/")
      with ⟨s1, tbl1, ab⟩
    have h1 : compile_lottery_results s tbl = ⟨s1, tbl1, !ab, ab⟩ := by
      unfold compile_lottery_results
      rw [if_neg hemp]
      rw [hrun]
    have hstore : s1 = s.map (fun o =>
        if (markedKeys s (get_unprocessed_files s "raw-results/")).contains o.key then
          { o with tags := setProcessedTo "true" true o.tags } else o) := by
      have hchar := compileLoop_store_char (get_unprocessed_files s "raw-results/")
        s tbl hfilesnd
      rw [hrun] at hchar
      exact hchar
    have hreset : reset_processed_tags s1 = s := by
      rw [hstore]
      apply reset_restores s _ hnd hfalseonly
      · intro k hk
        have hkf := markedKeys_subset s _ k hk
        rcases mem_scan_unpack s "raw-results/" "false" k hkf with
          ⟨o, ho, hkey, hpfx2, htag⟩
        exact ⟨o, ho, hkey, htag⟩
      · intro k hk
        have hkf := markedKeys_subset s _ k hk
        rcases mem_scan_unpack s "raw-results/" "false" k hkf with
          ⟨o, ho, hkey, hpfx2, htag⟩
        exact hpfx2
    have h2 : compile_lottery_results s tbl1 = ⟨s1, tbl1, !ab, ab⟩ := by
      unfold compile_lottery_results
      rw [if_neg hemp]
      rw [compileLoop_stable _ s tbl tbl1 s1 tbl1 ab hrun (fun g n h => h)]
    rw [h1]
    show (compile_lottery_results (reset_processed_tags s1) tbl1).table = tbl1
    rw [hreset, h2]

/-- C4, witness: one compilable raw file — compile, reset, recompile leaves
the one-row table unchanged. -/
theorem c4_reset_then_recompile_witness :
    (compile_lottery_results
        (reset_processed_tags (compile_lottery_results [goodEntry] []).store)
        (compile_lottery_results [goodEntry] []).table).table =
      (compile_lottery_results [goodEntry] []).table :=
  c4_reset_then_recompile [goodEntry] [] (by decide) (by decide)

end Lottery
